import Mathlib

set_option linter.unusedVariables false

/-!
Verification of the ClipFlow edit-decision pipeline (src/src-tauri/src/main.rs).

Rust strings are embedded as `List Char`; `f64` timestamps are embedded as `ℚ`
(every numeric literal the claims exercise is an exactly representable decimal,
and no claim depends on rounding). Calls to external processes (`ffprobe`,
`ffmpeg`, `whisper`) are embedded by passing the process outcome — spawn
failure, or exit status plus captured streams — as an explicit argument.
-/

/-- Embedded Rust string: a list of characters. -/
abbrev Str := List Char

/-- Convert a Lean string literal to the embedded representation. -/
def str (s : String) : Str := s.data

/-- Models `str::starts_with`: `listStartsWith pat s` holds when `s` begins with `pat`. -/
def listStartsWith : Str → Str → Bool
  | [], _ => true
  | _ :: _, [] => false
  | p :: ps, c :: cs => p == c && listStartsWith ps cs

/-- Models Rust `str::contains(&str)`: substring containment. -/
def containsSub (pat : Str) : Str → Bool
  | [] => listStartsWith pat []
  | c :: rest => listStartsWith pat (c :: rest) || containsSub pat rest

/-- Split at the first occurrence of `pat`, returning the text before and after it. -/
def findSplit (pat : Str) : Str → Option (Str × Str)
  | [] => if pat.isEmpty then some ([], []) else none
  | c :: rest =>
    if listStartsWith pat (c :: rest) then some ([], (c :: rest).drop pat.length)
    else
      match findSplit pat rest with
      | some (pre, post) => some (c :: pre, post)
      | none => none

/-- Fuelled worker for `rustSplit`; the fuel `s.length + 1` always suffices for a
non-empty pattern because each step strictly shortens the remaining text. -/
def splitOnAux (pat : Str) : Nat → Str → List Str
  | 0, s => [s]
  | fuel + 1, s =>
    match findSplit pat s with
    | none => [s]
    | some (pre, post) => pre :: splitOnAux pat fuel post

/-- Models Rust `str::split(pat)` (non-empty pattern, left-to-right, non-overlapping). -/
def rustSplit (pat s : Str) : List Str := splitOnAux pat (s.length + 1) s

/-- Drop a trailing carriage return, as Rust `str::lines` does. -/
def stripCr (l : Str) : Str := if l.getLast? == some '\r' then l.dropLast else l

/-- Models Rust `str::lines`: split on newline, with no empty trailing line. -/
def rustLines (s : Str) : List Str :=
  let parts := rustSplit ['\n'] s
  let parts := if s.getLast? == some '\n' then parts.dropLast else parts
  parts.map stripCr

/-- Models Rust `str::trim`: strip whitespace from both ends. -/
def rustTrim (s : Str) : Str :=
  ((s.dropWhile Char.isWhitespace).reverse.dropWhile Char.isWhitespace).reverse

/-- Models Rust `str::split_once(char)`. -/
def splitOnceChar (c : Char) : Str → Option (Str × Str)
  | [] => none
  | a :: rest =>
    if a == c then some ([], rest)
    else
      match splitOnceChar c rest with
      | some (pre, post) => some (a :: pre, post)
      | none => none

/-- All characters are ASCII digits. -/
def isDigitStr (s : Str) : Bool := s.all Char.isDigit

/-- Numeric value of a digit string. -/
def digitsVal (s : Str) : Nat := s.foldl (fun acc c => acc * 10 + (c.toNat - '0'.toNat)) 0

/-- Value of an unsigned decimal literal `intpart[.fracpart]`. -/
def parseDecimal (body : Str) : Option ℚ :=
  match splitOnceChar '.' body with
  | none => if !body.isEmpty && isDigitStr body then some (digitsVal body : ℚ) else none
  | some (ip, fp) =>
    if !(ip.isEmpty && fp.isEmpty) && isDigitStr ip && isDigitStr fp then
      some ((digitsVal ip : ℚ) + (digitsVal fp : ℚ) / ((10 : ℚ) ^ fp.length))
    else none

/-- Models `str::parse::<f64>()` on the plain decimal grammar `[+-]?digits[.digits]?`
(the only forms the analyzer and probe emit); timestamps are kept exact in `ℚ`. -/
def parseRat (s : Str) : Option ℚ :=
  match s with
  | '-' :: r => (parseDecimal r).map (fun q => -q)
  | '+' :: r => parseDecimal r
  | _ => parseDecimal s

/-- Decimal digits of a rational in `[0, 1)`, up to a fuel bound. -/
def fracDigits : Nat → ℚ → Str
  | 0, _ => []
  | n + 1, q =>
    if q = 0 then []
    else
      let d := (q * 10).floor
      str (toString d.toNat) ++ fracDigits n (q * 10 - (d : ℚ))

/-- Models Rust `format!("{}", x)` for `f64`: integers print without a fractional
part (`1.0` prints as `1`), and terminating decimals print exactly. -/
def ratDisplay (q : ℚ) : Str :=
  let sgn : Str := if q < 0 then ['-'] else []
  let a := |q|
  let ip := a.floor
  let fr := a - (ip : ℚ)
  if fr = 0 then sgn ++ str (toString ip.toNat)
  else sgn ++ str (toString ip.toNat) ++ ['.'] ++ fracDigits 25 fr

/-- Models `path_str.replace("'", "'\\''")`: every single quote becomes the
four characters quote, backslash, quote, quote. -/
def escapeQuotes : Str → Str
  | [] => []
  | c :: rest =>
    if c == '\'' then '\'' :: '\\' :: '\'' :: '\'' :: escapeQuotes rest
    else c :: escapeQuotes rest

/-- The quoted form `format!("'{}'", path_str.replace("'", "'\\''"))`. -/
def quoteWrap (s : Str) : Str := '\'' :: (escapeQuotes s ++ ['\''])

/-- Embeds `escape_path` (main.rs:11-22). `PathBuf::from(path).to_string_lossy()`
is the identity on the valid-UTF-8 strings `&str` guarantees, so the function
reduces to the quoting decision: quote when the path contains a space, a single
quote, or an ampersand. -/
def escape_path (path : Str) : Str :=
  if path.contains ' ' || path.contains '\'' || path.contains '&' then quoteWrap path
  else path

/-- Captured outcome of a process run via `Command::output()`:
exit-status success flag plus both streams. -/
structure Output where
  success : Bool
  stdout : Str
  stderr : Str

/-- A silence interval as produced by `analyze_silence` (main.rs:189-194). -/
structure SilenceSegment where
  start : ℚ
  «end» : ℚ
  duration : ℚ
deriving DecidableEq, Repr

/-- Embeds the inner loop of `analyze_silence` (main.rs:162-177): scan all lines
from the top for the first `silence_end:` line that does not contain
`format!("silence_start: {}", s)` and whose end timestamp parses; the loop only
breaks once a parse succeeds, otherwise it keeps scanning. -/
def findEnd (fmt : Str) : List Str → Option ℚ
  | [] => none
  | l :: rest =>
    if containsSub (str "silence_end:") l && !containsSub fmt l then
      match (rustSplit (str "silence_end: ") l).get? 1 with
      | some endTok =>
        match splitOnceChar ' ' endTok with
        | some (e0, _) =>
          match parseRat (rustTrim e0) with
          | some v => some v
          | none => findEnd fmt rest
        | none => findEnd fmt rest
      | none => findEnd fmt rest
    else findEnd fmt rest

/-- Embeds one iteration of the outer loop of `analyze_silence` (main.rs:158-181):
a `silence_start:` line contributes at most one segment, paired by `findEnd`
against the full line list; the pushed segment is `{start, end, end - start}`. -/
def lineSegment (allLines : List Str) (line : Str) : List SilenceSegment :=
  if containsSub (str "silence_start:") line then
    match (rustSplit (str "silence_start: ") line).get? 1 with
    | some startTok =>
      match parseRat (rustTrim startTok) with
      | some s =>
        match findEnd (str "silence_start: " ++ ratDisplay s) allLines with
        | some v => [{ start := s, «end» := v, duration := v - s }]
        | none => []
      | none => []
    | none => []
  else []

/-- Outer loop of `analyze_silence`: segments are pushed in line order. -/
def collectSegments (allLines : List Str) : List Str → List SilenceSegment
  | [] => []
  | l :: rest => lineSegment allLines l ++ collectSegments allLines rest

/-- The full parser of `analyze_silence` applied to the analyzer's stderr text. -/
def parseSilence (stderrText : Str) : List SilenceSegment :=
  collectSegments (rustLines stderrText) (rustLines stderrText)

/-- Embeds `analyze_silence` (main.rs:139-187): the exit status is never
inspected; whenever the process ran, the parsed segment list is returned as `Ok`. -/
def analyze_silence (file_path : Str) (threshold_db : ℚ)
    (spawned : Except Str Output) : Except Str (List SilenceSegment) :=
  match spawned with
  | .ok out => .ok (parseSilence out.stderr)
  | .error e => .error (str "Failed to analyze silence: " ++ e)

/-- Embeds `get_video_duration` (main.rs:30-58). -/
def get_video_duration (file_path : Str) (spawned : Except Str Output) : Except Str ℚ :=
  match spawned with
  | .ok out =>
    if out.success then
      match parseRat (rustTrim out.stdout) with
      | some d => .ok d
      | none => .error (str "Failed to parse duration")
    else .error (str "ffprobe failed: " ++ out.stderr ++ str ". Path: " ++ file_path)
  | .error e => .error (str "Failed to run ffprobe: " ++ e ++ str ". Path: " ++ file_path)

/-- Embeds `trim_video` (main.rs:61-86). The source calls `Command::status()`,
so only the exit status is available — stderr is never captured. -/
def trim_video (input_path output_path : Str) (start_time end_time : ℚ)
    (spawned : Except Str Bool) : Except Str Bool :=
  match spawned with
  | .ok st => if st then .ok true else .error (str "ffmpeg trim failed")
  | .error e => .error (str "Failed to run ffmpeg: " ++ e)

/-- A user keep-range as deserialized by `cut_video_remove` (main.rs:88-92). -/
structure CutSegment where
  keep_start : ℚ
  keep_end : ℚ
deriving DecidableEq, Repr

/-- Embeds `cut_video_remove` (main.rs:95-110): empty segment list runs a plain
copy and returns `Ok(status.success())`; any non-empty list is unimplemented. -/
def cut_video_remove (input_path output_path : Str) (segments : List CutSegment)
    (spawned : Except Str Bool) : Except Str Bool :=
  if segments.isEmpty then
    match spawned with
    | .ok st => .ok st
    | .error e => .error (str "Failed to run ffmpeg: " ++ e)
  else .error (str "Complex cut not yet implemented")

/-- Embeds the quality match of `export_video` (main.rs:201-206). -/
def codec_args (quality : Str) : List Str :=
  if quality = str "high" then [str "-c:v", str "libx264", str "-crf", str "18"]
  else if quality = str "medium" then [str "-c:v", str "libx264", str "-crf", str "23"]
  else if quality = str "low" then [str "-c:v", str "libx264", str "-crf", str "28"]
  else [str "-c:v", str "libx264", str "-crf", str "23"]

/-- Argument vector built by `export_video` (main.rs:208-213). -/
def export_args (input_path output_path quality : Str) : List Str :=
  [str "-i", escape_path input_path] ++ codec_args quality
    ++ [str "-preset", str "medium", escape_path output_path, str "-y"]

/-- Embeds the result handling of `export_video` (main.rs:215-226). -/
def export_video (input_path output_path quality : Str)
    (spawned : Except Str Bool) : Except Str Bool :=
  match spawned with
  | .ok st => if st then .ok true else .error (str "ffmpeg export failed")
  | .error e => .error (str "Failed to run ffmpeg: " ++ e)

/-- JSON values as `serde_json::Value`; numbers are kept exact in `ℚ`. -/
inductive Json where
  | null
  | bool (b : Bool)
  | num (q : ℚ)
  | string (s : Str)
  | array (xs : List Json)
  | obj (fields : List (Str × Json))

/-- Models `serde_json` indexing `json["key"]`: a missing key or a non-object
yields `Null`. -/
def Json.getField : Json → Str → Json
  | .obj fields, key =>
    match fields.find? (fun kv => kv.1 == key) with
    | some kv => kv.2
    | none => .null
  | _, _ => .null

/-- Models `Value::as_str`. -/
def Json.asStr : Json → Option Str
  | .string s => some s
  | _ => none

/-- Models `Value::as_f64`. -/
def Json.asF64 : Json → Option ℚ
  | .num q => some q
  | _ => none

/-- Models `Value::as_i64`: defined only for integer-valued numbers. -/
def Json.asI64 : Json → Option ℤ
  | .num q => if q.den = 1 then some q.num else none
  | _ => none

/-- Models `Value::as_array`. -/
def Json.asArr : Json → Option (List Json)
  | .array xs => some xs
  | _ => none

/-- Segment record built by `transcribe_audio` (main.rs:354-360). -/
structure TranscriptionSegment where
  id : Nat
  start : ℚ
  «end» : ℚ
  text : Str
deriving DecidableEq, Repr

/-- Result record built by `transcribe_audio` (main.rs:346-352). -/
structure TranscriptionResult where
  text : Str
  segments : List TranscriptionSegment
  language : Str
  duration : ℚ
deriving DecidableEq, Repr

/-- Embeds the per-segment mapping of `transcribe_audio` (main.rs:281-286):
`seg["id"].as_i64().unwrap_or(0) as usize` (the cast wraps mod `2^64`),
`as_f64().unwrap_or(0.0)` for the bounds, `as_str().unwrap_or("").trim()` for text. -/
def parseTranscriptionSegment (seg : Json) : TranscriptionSegment :=
  { id := (((seg.getField (str "id")).asI64.getD 0) % (2 ^ 64 : ℤ)).toNat
  , start := (seg.getField (str "start")).asF64.getD 0
  , «end» := (seg.getField (str "end")).asF64.getD 0
  , text := rustTrim ((seg.getField (str "text")).asStr.getD []) }

/-- Embeds the deserialization of the engine's JSON document by
`transcribe_audio` (main.rs:275-294). -/
def parseTranscription (json : Json) : TranscriptionResult :=
  { text := rustTrim ((json.getField (str "text")).asStr.getD [])
  , segments := ((json.getField (str "segments")).asArr.getD []).map parseTranscriptionSegment
  , language := (json.getField (str "language")).asStr.getD (str "en")
  , duration := (json.getField (str "duration")).asF64.getD 0 }

/-- The scratch file `transcribe_audio` stages intermediate audio to (main.rs:234). -/
def temp_wav : Str := str "/tmp/clipflow_audio.wav"

/-- Scratch filename as a function of a transcription job's parameters
(input path and model name): the source hard-codes the single path `temp_wav`
for every job. -/
def scratch_path (input_path model : Str) : Str := temp_wav

/-- Error taxonomy of the edit-decision builder (spec §7). -/
inductive PlanningError where
  | outOfBounds
  | overlap
deriving DecidableEq, Repr

/-- An EDL entry: a kept range tagged with its stable index (spec §3). -/
structure EdlEntry where
  index : Nat
  start : ℚ
  «end» : ℚ
deriving DecidableEq, Repr

/-- Sorting key of the builder: compare keep-ranges by start. -/
def segLE (a b : CutSegment) : Prop := a.keep_start ≤ b.keep_start

instance : DecidableRel segLE := fun a b =>
  inferInstanceAs (Decidable (a.keep_start ≤ b.keep_start))

instance : IsTotal CutSegment segLE := ⟨fun a b => le_total a.keep_start b.keep_start⟩

instance : IsTrans CutSegment segLE := ⟨fun _ _ _ h₁ h₂ => le_trans h₁ h₂⟩

/-- Validation predicate of the builder (spec §4.3): `0 ≤ start < end ≤ duration`. -/
def segValid (duration : ℚ) (s : CutSegment) : Prop :=
  0 ≤ s.keep_start ∧ s.keep_start < s.keep_end ∧ s.keep_end ≤ duration

instance (d : ℚ) (s : CutSegment) : Decidable (segValid d s) := by
  unfold segValid; infer_instance

/-- Consecutive-pair overlap check on the sorted list (spec §4.3):
reject when `segments[i].end > segments[i+1].start`. -/
def hasAdjOverlap : List CutSegment → Bool
  | [] => false
  | [_] => false
  | a :: b :: rest => decide (b.keep_start < a.keep_end) || hasAdjOverlap (b :: rest)

/-- Assign stable indices `n, n+1, …` in list order (spec §4.3). -/
def assignIdx (n : Nat) : List CutSegment → List EdlEntry
  | [] => []
  | s :: rest => ⟨n, s.keep_start, s.keep_end⟩ :: assignIdx (n + 1) rest

/-- Modelled from the spec: `EditDecisionBuilder` from keep-ranges (spec §4.3).
The source's `cut_video_remove` (main.rs:95-110) leaves every non-empty segment
list unimplemented (`"Complex cut not yet implemented"`), so the builder itself
is missing from the repository; this follows the spec's words: validate every
segment (`end ≤ duration`, `start ≥ 0`, `start < end`) rejecting with
`OutOfBounds`, sort by start, reject with `Overlap` when a consecutive pair
overlaps, assign stable indices in sorted order, and map empty input to the
identity EDL `[0, duration]`. -/
def buildEdlFromKeepRanges (duration : ℚ) (segments : List CutSegment) :
    Except PlanningError (List EdlEntry) :=
  if segments.isEmpty then .ok [⟨0, 0, duration⟩]
  else if segments.all (fun s => decide (segValid duration s)) then
    let sorted := segments.insertionSort segLE
    if hasAdjOverlap sorted then .error .overlap
    else .ok (assignIdx 0 sorted)
  else .error .outOfBounds

/-- Overlap of two keep-ranges: their interiors intersect. -/
def segsOverlap (a b : CutSegment) : Prop :=
  a.keep_start < b.keep_end ∧ b.keep_start < a.keep_end

instance (a b : CutSegment) : Decidable (segsOverlap a b) := by
  unfold segsOverlap; infer_instance

/-- Range carried by a keep-segment. -/
def segRange (s : CutSegment) : ℚ × ℚ := (s.keep_start, s.keep_end)

/-- Range carried by an EDL entry. -/
def entryRange (e : EdlEntry) : ℚ × ℚ := (e.start, e.«end»)

/-- Analyzer text of spec §8's concrete detection example (claim C2). -/
def silenceClaimInput : Str :=
  str "silence_start: 1.0\nsilence_end: 2.5 | silence_duration: 1.5\nsilence_start: 4.0\nsilence_end: 4.2 | silence_duration: 0.2"

/-- Analyzer text with two `silence_start` lines before any `silence_end` (claim C3). -/
def doubleStartInput : Str :=
  str "silence_start: 1.0\nsilence_start: 2.0\nsilence_end: 3.0 | silence_duration: 1.0"

/-- Well-formed analyzer text with a single start/end pair. -/
def singlePairInput : Str :=
  str "silence_start: 1.0\nsilence_end: 2.0 | silence_duration: 1.0"

/-- Quoting condition the source actually tests (main.rs:16): a space character,
a single quote, or an ampersand. -/
def needsQuoting (path : Str) : Bool :=
  path.contains ' ' || path.contains '\'' || path.contains '&'

/-- Quoting condition in the claim's words: any whitespace, a single quote,
or an ampersand. -/
def specNeedsQuoting (path : Str) : Bool :=
  path.any Char.isWhitespace || path.contains '\'' || path.contains '&'

/-! ## Theorems -/

theorem escapeQuotes_length_ge (p : Str) : p.length ≤ (escapeQuotes p).length := by
  induction p with
  | nil => simp [escapeQuotes]
  | cons c rest ih =>
    by_cases h : c == '\'' <;> simp [escapeQuotes, h] <;> omega

theorem quoteWrap_ne_self (p : Str) : p ≠ quoteWrap p := by
  intro h
  have hlen := congrArg List.length h
  have := escapeQuotes_length_ge p
  simp [quoteWrap] at hlen
  omega

/-- Claim C4 (counterexample): a path containing a tab — whitespace, in the
claim's words — is returned unchanged by `escape_path`, not wrapped in quotes. -/
theorem escape_path_whitespace_counterexample :
    specNeedsQuoting (str "a\tb") = true ∧
    escape_path (str "a\tb") = str "a\tb" ∧
    escape_path (str "a\tb") ≠ quoteWrap (str "a\tb") := by
  refine ⟨by decide, by decide, ?_⟩
  intro h
  rw [(by decide : escape_path (str "a\tb") = str "a\tb")] at h
  exact quoteWrap_ne_self _ h

/-- Claim C4 (amended): `escape_path` is total and pure, and returns the path
wrapped in single quotes with internal quotes escaped exactly when the path
contains a space character (not arbitrary whitespace), a single quote, or an
ampersand; otherwise it returns the path unchanged. -/
theorem escape_path_characterization (p : Str) :
    (needsQuoting p = true → escape_path p = quoteWrap p) ∧
    (needsQuoting p = false → escape_path p = p) ∧
    (escape_path p = quoteWrap p ↔ needsQuoting p = true) := by
  have hpos : needsQuoting p = true → escape_path p = quoteWrap p := by
    intro h
    have h' : (p.contains ' ' || p.contains '\'' || p.contains '&') = true := h
    unfold escape_path
    rw [h']
    simp
  have hneg : needsQuoting p = false → escape_path p = p := by
    intro h
    have h' : (p.contains ' ' || p.contains '\'' || p.contains '&') = false := h
    unfold escape_path
    rw [h']
    simp
  refine ⟨hpos, hneg, ⟨fun h => ?_, hpos⟩⟩
  cases hq : needsQuoting p with
  | true => rfl
  | false => exact absurd ((hneg hq).symm.trans h) (quoteWrap_ne_self p)

/-- Witness for `escape_path_characterization` at concrete paths. -/
theorem escape_path_characterization_witness :
    escape_path (str "a b") = quoteWrap (str "a b") ∧ escape_path (str "ab") = str "ab" :=
  ⟨(escape_path_characterization (str "a b")).1 (by decide),
   (escape_path_characterization (str "ab")).2.1 (by decide)⟩

/-- Claim C5: the quality presets map to CRF 18/23/28, every unrecognized
string maps to exactly the `medium` arguments, and the export outcome never
depends on the quality string. -/
theorem codec_args_presets :
    codec_args (str "high") = [str "-c:v", str "libx264", str "-crf", str "18"] ∧
    codec_args (str "medium") = [str "-c:v", str "libx264", str "-crf", str "23"] ∧
    codec_args (str "low") = [str "-c:v", str "libx264", str "-crf", str "28"] ∧
    (∀ q : Str, q ≠ str "high" → q ≠ str "medium" → q ≠ str "low" →
      codec_args q = codec_args (str "medium")) ∧
    (∀ ip op q₁ q₂ sp, export_video ip op q₁ sp = export_video ip op q₂ sp) := by
  refine ⟨by decide, by decide, by decide, fun q h1 h2 h3 => ?_, fun _ _ _ _ _ => rfl⟩
  unfold codec_args
  rw [if_neg h1, if_neg h2, if_neg h3, if_neg (by decide), if_pos rfl]

/-- Witness for `codec_args_presets` at an unrecognized quality string. -/
theorem codec_args_presets_witness :
    codec_args (str "ultra") = codec_args (str "medium") :=
  codec_args_presets.2.2.2.1 (str "ultra") (by decide) (by decide) (by decide)

/-- Claim C6 (counterexample): when the transcoder run by `trim_video` starts
and exits non-zero — say with diagnostic text `disk full` on stderr, which the
source never captures (`Command::status()`) — the caller gets the generic
string `ffmpeg trim failed`, which contains no diagnostic text. -/
theorem trim_video_generic_error :
    trim_video (str "in.mp4") (str "out.mp4") 0 1 (.ok false) =
      .error (str "ffmpeg trim failed") ∧
    containsSub (str "disk full") (str "ffmpeg trim failed") = false :=
  ⟨rfl, by decide⟩

/-- Claim C6 (amended): a probe (`ffprobe`) failure surfaces the captured
stderr inside the returned error (the error text literally embeds it), while a
transcoder failure in `trim_video` yields the fixed generic message. -/
theorem probe_error_contains_stderr (p so se : Str) :
    get_video_duration p (.ok ⟨false, so, se⟩) =
      .error (str "ffprobe failed: " ++ se ++ str ". Path: " ++ p) ∧
    (∃ pre suf, get_video_duration p (.ok ⟨false, so, se⟩) = .error (pre ++ se ++ suf)) ∧
    (∀ ip op s e, trim_video ip op s e (.ok false) = .error (str "ffmpeg trim failed")) := by
  refine ⟨rfl, ⟨str "ffprobe failed: ", str ". Path: " ++ p, ?_⟩, fun _ _ _ _ => rfl⟩
  show Except.error _ = Except.error _
  rw [List.append_assoc]

/-- Claim C8: the scratch filename `transcribe_audio` stages audio to is one
fixed path, identical for every pair of jobs — including two distinct jobs. -/
theorem scratch_path_constant :
    (∀ i₁ m₁ i₂ m₂ : Str, scratch_path i₁ m₁ = scratch_path i₂ m₂) ∧
    scratch_path (str "a.mp4") (str "tiny") = str "/tmp/clipflow_audio.wav" ∧
    str "a.mp4" ≠ str "b.mp4" :=
  ⟨fun _ _ _ _ => rfl, rfl, by decide⟩

/-- Claim C10: `cut_video_remove` on an empty segment list returns
`Ok(status.success())` — in particular `Ok(false)` on a non-zero exit — and
returns an `Err` exactly when the process could not be started. -/
theorem cut_video_remove_empty_list (ip op : Str) :
    cut_video_remove ip op [] (.ok false) = .ok false ∧
    (∀ st : Bool, cut_video_remove ip op [] (.ok st) = .ok st) ∧
    (∀ e : Str, cut_video_remove ip op [] (.error e) =
      .error (str "Failed to run ffmpeg: " ++ e)) :=
  ⟨rfl, fun _ => rfl, fun _ => rfl⟩

/-- Claim C2 (evaluation at the failing input): on spec §8's example text the
source's nested-loop pairing matches the second `silence_start` (4.0) against
the FIRST `silence_end` line, so the call returns
`[{1, 2.5, 1.5}, {4, 2.5, -1.5}]` — the second interval is `{4, 2.5}` with
negative duration, not the `{4, 4.2}` the claim states. -/
theorem analyze_silence_mispairs_on_example :
    analyze_silence (str "v.mp4") (-30) (.ok ⟨true, [], silenceClaimInput⟩) =
      .ok [⟨1, 5/2, 3/2⟩, ⟨4, 5/2, -(3/2)⟩] ∧
    (⟨4, 5/2, -(3/2)⟩ : SilenceSegment) ≠ ⟨4, 21/5, 1/5⟩ := by
  constructor
  · with_unfolding_all rfl
  · with_unfolding_all decide

/-- Claim C3 (evaluation at the failing input): on text with two consecutive
`silence_start` lines before any `silence_end`, `analyze_silence` does not fail
— it returns `Ok` with a fabricated overlapping pair, each start matched
against the same end line. -/
theorem analyze_silence_no_error_on_double_start :
    analyze_silence (str "v.mp4") (-30) (.ok ⟨true, [], doubleStartInput⟩) =
      .ok [⟨1, 3, 2⟩, ⟨2, 3, 1⟩] := by
  with_unfolding_all rfl

theorem lineSegment_duration (all : List Str) (line : Str) (seg : SilenceSegment)
    (h : seg ∈ lineSegment all line) : seg.duration = seg.«end» - seg.start := by
  unfold lineSegment at h
  repeat' split at h
  all_goals simp_all

theorem collectSegments_duration (all l : List Str) (seg : SilenceSegment)
    (h : seg ∈ collectSegments all l) : seg.duration = seg.«end» - seg.start := by
  induction l with
  | nil => simp [collectSegments] at h
  | cons hd tl ih =>
    simp only [collectSegments, List.mem_append] at h
    rcases h with h | h
    · exact lineSegment_duration all hd seg h
    · exact ih h

/-- Claim C9: every segment `analyze_silence` emits satisfies
`duration = end - start` exactly, whatever the input text — the pushed record
is always `{start: s, end: v, duration: v - s}`. -/
theorem parseSilence_duration_consistent (t : Str) (seg : SilenceSegment)
    (h : seg ∈ parseSilence t) : seg.duration = seg.«end» - seg.start :=
  collectSegments_duration _ _ seg h

/-- Witness for `parseSilence_duration_consistent` on a concrete analyzer text. -/
theorem parseSilence_duration_consistent_witness :
    (⟨1, 2, 1⟩ : SilenceSegment).duration =
      (⟨1, 2, 1⟩ : SilenceSegment).«end» - (⟨1, 2, 1⟩ : SilenceSegment).start :=
  parseSilence_duration_consistent singlePairInput ⟨1, 2, 1⟩
    (by with_unfolding_all decide)

theorem assignIdx_length (n : Nat) (l : List CutSegment) :
    (assignIdx n l).length = l.length := by
  induction l generalizing n with
  | nil => rfl
  | cons s rest ih => simp [assignIdx, ih]

theorem assignIdx_mem (n : Nat) (l : List CutSegment) (e : EdlEntry)
    (h : e ∈ assignIdx n l) :
    ∃ t ∈ l, e.start = t.keep_start ∧ e.«end» = t.keep_end := by
  induction l generalizing n with
  | nil => simp [assignIdx] at h
  | cons s rest ih =>
    simp only [assignIdx, List.mem_cons] at h
    rcases h with h | h
    · subst h
      exact ⟨s, List.mem_cons_self s rest, rfl, rfl⟩
    · obtain ⟨t, ht, he⟩ := ih (n + 1) h
      exact ⟨t, List.mem_cons_of_mem s ht, he⟩

theorem assignIdx_map_index (n : Nat) (l : List CutSegment) :
    (assignIdx n l).map EdlEntry.index = List.range' n l.length := by
  induction l generalizing n with
  | nil => rfl
  | cons s rest ih => simp [assignIdx, List.range', ih]

theorem assignIdx_map_range (n : Nat) (l : List CutSegment) :
    (assignIdx n l).map entryRange = l.map segRange := by
  induction l generalizing n with
  | nil => rfl
  | cons s rest ih => simp [assignIdx, entryRange, segRange, ih]

theorem assignIdx_sorted (n : Nat) (l : List CutSegment) (h : l.Pairwise segLE) :
    (assignIdx n l).Pairwise (fun a b => a.start ≤ b.start) := by
  induction l generalizing n with
  | nil => exact List.Pairwise.nil
  | cons s rest ih =>
    rcases List.pairwise_cons.1 h with ⟨hhead, htail⟩
    refine List.Pairwise.cons ?_ (ih (n + 1) htail)
    intro e he
    obtain ⟨t, ht, hs, _⟩ := assignIdx_mem (n + 1) rest e he
    show (⟨n, s.keep_start, s.keep_end⟩ : EdlEntry).start ≤ e.start
    rw [hs]
    exact hhead t ht

theorem noAdj_of_pairwise_le :
    ∀ l : List CutSegment, l.Pairwise (fun a b => a.keep_end ≤ b.keep_start) →
      hasAdjOverlap l = false
  | [], _ => rfl
  | [_], _ => rfl
  | a :: b :: rest, h => by
    rcases List.pairwise_cons.1 h with ⟨hhead, htail⟩
    have hab : a.keep_end ≤ b.keep_start := hhead b (List.mem_cons_self b rest)
    have htl : hasAdjOverlap (b :: rest) = false := noAdj_of_pairwise_le (b :: rest) htail
    simp [hasAdjOverlap, htl]
    exact hab

theorem pairwise_le_of_noAdj :
    ∀ l : List CutSegment, (∀ s ∈ l, s.keep_start < s.keep_end) →
      hasAdjOverlap l = false → l.Pairwise (fun a b => a.keep_end ≤ b.keep_start)
  | [], _, _ => List.Pairwise.nil
  | [a], _, _ => by simp
  | a :: b :: rest, hv, h => by
    have hsplit : decide (b.keep_start < a.keep_end) = false ∧
        hasAdjOverlap (b :: rest) = false := by
      simpa [hasAdjOverlap] using h
    have IH := pairwise_le_of_noAdj (b :: rest)
      (fun s hs => hv s (List.mem_cons_of_mem a hs)) hsplit.2
    refine List.Pairwise.cons ?_ IH
    intro x hx
    have hab : a.keep_end ≤ b.keep_start := not_lt.1 (by simpa using hsplit.1)
    rcases List.mem_cons.1 hx with rfl | hx'
    · exact hab
    · rcases List.pairwise_cons.1 IH with ⟨hbhead, _⟩
      have hbx : b.keep_end ≤ x.keep_start := hbhead x hx'
      have hb : b.keep_start < b.keep_end := hv b (by simp)
      linarith

theorem pairwise_le_of_sorted_nonoverlap (l : List CutSegment)
    (hv : ∀ s ∈ l, s.keep_start < s.keep_end)
    (hs : l.Pairwise segLE)
    (hno : l.Pairwise (fun a b => ¬ segsOverlap a b)) :
    l.Pairwise (fun a b => a.keep_end ≤ b.keep_start) := by
  refine (hs.and hno).imp_of_mem ?_
  intro a b ha hb hrs
  by_contra hcon
  push_neg at hcon
  exact hrs.2 ⟨lt_of_le_of_lt hrs.1 (hv b hb), hcon⟩

/-- Claim C1 (counterexample): as stated the claim fails twice on the
spec-modelled builder. An empty input is in bounds and trivially
non-overlapping, yet the EDL is the identity entry `[0, duration]`, not the
(empty) input sorted. And a list with an overlapping pair that is also out of
bounds fails with `OutOfBounds`, not `Overlap`, because validation runs first. -/
theorem buildEdl_claim_counterexample :
    buildEdlFromKeepRanges 10 [] = .ok [⟨0, 0, 10⟩] ∧
    ([⟨0, 0, 10⟩] : List EdlEntry).map entryRange ≠ ([] : List CutSegment).map segRange ∧
    segsOverlap ⟨0, 20⟩ ⟨0, 20⟩ ∧
    buildEdlFromKeepRanges 10 [⟨0, 20⟩, ⟨0, 20⟩] = .error .outOfBounds ∧
    PlanningError.outOfBounds ≠ PlanningError.overlap := by
  refine ⟨?_, ?_, ?_, ?_, ?_⟩
  · with_unfolding_all rfl
  · with_unfolding_all decide
  · with_unfolding_all decide
  · with_unfolding_all rfl
  · decide

/-- Claim C1 (amended): over the spec-modelled builder, for every in-bounds
input (`0 ≤ start < end ≤ duration` for each segment): a non-empty pairwise
non-overlapping list succeeds with the segments sorted by start and indices
assigned contiguously from 0 (the output ranges are a permutation of the input
ranges); and any in-bounds list containing an overlapping pair fails with
`PlanningError::Overlap`. (Empty input yields the identity EDL `[0, duration]`;
an input that is also out of bounds fails with `OutOfBounds` instead.) -/
theorem buildEdl_correct (d : ℚ) (L : List CutSegment)
    (hval : ∀ s ∈ L, segValid d s) :
    (L ≠ [] → L.Pairwise (fun a b => ¬ segsOverlap a b) →
      ∃ out, buildEdlFromKeepRanges d L = .ok out ∧
        out.Pairwise (fun a b => a.start ≤ b.start) ∧
        out.map EdlEntry.index = List.range out.length ∧
        List.Perm (out.map entryRange) (L.map segRange)) ∧
    (¬ L.Pairwise (fun a b => ¬ segsOverlap a b) →
      buildEdlFromKeepRanges d L = .error .overlap) := by
  have hvalidated : L.all (fun s => decide (segValid d s)) = true :=
    List.all_eq_true.2 fun s hs => decide_eq_true (hval s hs)
  have hperm : List.Perm (L.insertionSort segLE) L := List.perm_insertionSort segLE L
  have hsorted : (L.insertionSort segLE).Pairwise segLE := List.sorted_insertionSort segLE L
  have hv' : ∀ s ∈ L.insertionSort segLE, s.keep_start < s.keep_end :=
    fun s hs => (hval s (hperm.mem_iff.1 hs)).2.1
  constructor
  · intro hne hpair
    have hne' : L.isEmpty = false := by
      cases L with
      | nil => exact absurd rfl hne
      | cons _ _ => rfl
    have hpair' : (L.insertionSort segLE).Pairwise (fun a b => ¬ segsOverlap a b) :=
      (hperm.pairwise_iff fun hxy hab => hxy ⟨hab.2, hab.1⟩).2 hpair
    have hle : (L.insertionSort segLE).Pairwise
        (fun a b => a.keep_end ≤ b.keep_start) :=
      pairwise_le_of_sorted_nonoverlap _ hv' hsorted hpair'
    have hadj : hasAdjOverlap (L.insertionSort segLE) = false :=
      noAdj_of_pairwise_le _ hle
    refine ⟨assignIdx 0 (L.insertionSort segLE), ?_, ?_, ?_, ?_⟩
    · simp [buildEdlFromKeepRanges, hne', hvalidated, hadj]
    · exact assignIdx_sorted 0 _ hsorted
    · rw [assignIdx_map_index, assignIdx_length, List.range_eq_range']
    · rw [assignIdx_map_range]
      exact hperm.map segRange
  · intro hnpair
    have hne' : L.isEmpty = false := by
      cases L with
      | nil => exact absurd List.Pairwise.nil hnpair
      | cons _ _ => rfl
    cases hadj : hasAdjOverlap (L.insertionSort segLE) with
    | true => simp [buildEdlFromKeepRanges, hne', hvalidated, hadj]
    | false =>
      exfalso
      apply hnpair
      have hle := pairwise_le_of_noAdj _ hv' hadj
      have hno' : (L.insertionSort segLE).Pairwise (fun a b => ¬ segsOverlap a b) :=
        hle.imp fun h hov => absurd hov.2 (not_lt.2 h)
      exact (hperm.pairwise_iff fun hxy hab => hxy ⟨hab.2, hab.1⟩).1 hno'

/-- Witness for `buildEdl_correct` at spec §8's end-to-end example
(duration 10, keep-ranges `[{2,4},{6,9}]`). -/
theorem buildEdl_correct_witness :
    ∃ out, buildEdlFromKeepRanges 10 [⟨2, 4⟩, ⟨6, 9⟩] = .ok out ∧
      out.Pairwise (fun a b => a.start ≤ b.start) ∧
      out.map EdlEntry.index = List.range out.length ∧
      List.Perm (out.map entryRange) (([⟨2, 4⟩, ⟨6, 9⟩] : List CutSegment).map segRange) :=
  (buildEdl_correct 10 [⟨2, 4⟩, ⟨6, 9⟩] (by with_unfolding_all decide)).1
    (by with_unfolding_all decide) (by with_unfolding_all decide)

/-- Claim C7 (counterexample): on a document with every field missing, the
top-level `language` field defaults to `"en"`, not the empty string — the
claim's "empty string for text fields" does not hold for `language`. -/
theorem transcription_language_default_counterexample :
    parseTranscription (.obj []) = ⟨[], [], str "en", 0⟩ ∧
    (parseTranscription (.obj [])).language ≠ ([] : Str) := by
  constructor
  · with_unfolding_all rfl
  · with_unfolding_all decide

/-- Claim C7 (amended): deserialization tolerates every missing optional field,
substituting the empty string for the top-level text, zero for duration, the
empty list for segments, and per segment zero for id, start and end and the
empty string for text — but `"en"` (not the empty string) for the top-level
language field. -/
theorem transcription_defaults (j : Json) :
    ((j.getField (str "text")).asStr = none → (parseTranscription j).text = []) ∧
    ((j.getField (str "duration")).asF64 = none → (parseTranscription j).duration = 0) ∧
    ((j.getField (str "segments")).asArr = none → (parseTranscription j).segments = []) ∧
    ((j.getField (str "language")).asStr = none →
      (parseTranscription j).language = str "en") ∧
    (∀ s : Json, (s.getField (str "id")).asI64 = none →
      (parseTranscriptionSegment s).id = 0) ∧
    (∀ s : Json, (s.getField (str "start")).asF64 = none →
      (parseTranscriptionSegment s).start = 0) ∧
    (∀ s : Json, (s.getField (str "end")).asF64 = none →
      (parseTranscriptionSegment s).«end» = 0) ∧
    (∀ s : Json, (s.getField (str "text")).asStr = none →
      (parseTranscriptionSegment s).text = []) := by
  refine ⟨fun h => ?_, fun h => ?_, fun h => ?_, fun h => ?_,
    fun s h => ?_, fun s h => ?_, fun s h => ?_, fun s h => ?_⟩ <;>
    simp [parseTranscription, parseTranscriptionSegment, h, rustTrim]

/-- Witness for `transcription_defaults` on the empty JSON object. -/
theorem transcription_defaults_witness :
    (parseTranscription (Json.obj [])).language = str "en" ∧
    (parseTranscriptionSegment (Json.obj [])).id = 0 :=
  ⟨(transcription_defaults (Json.obj [])).2.2.2.1 (by with_unfolding_all rfl),
   (transcription_defaults (Json.obj [])).2.2.2.2.1 (Json.obj [])
     (by with_unfolding_all rfl)⟩
